import Mathlib

/-!
Shallow embedding of the reconciliation core of the `backup_websites`
repository: `src/backup_websites/tortillaconsal.py`,
`src/backup_websites/backup_website.py` and
`src/backup_websites/wait_for_completion.py`.

Network and filesystem effects are modelled as explicit inputs (probe
oracles `Nat → Bool` standing for "HEAD returned 200", scrape results,
directory listings) and explicit outputs (traces of issued network
actions or dispatched fetches).  A probe oracle returning `false` covers
both a non-200 status and a raised `RequestException`, which the Python
code treats identically at every probe site of the functions modelled
here.
-/

/-- Characters of the literal filename suffix `.html`. -/
def htmlSuffix : List Char := ['.', 'h', 't', 'm', 'l']

/-- Numeric value of a list of decimal digit characters, most significant
first, as computed by Python `int()` on the matched group. -/
def digitsToNat (cs : List Char) : Nat :=
  cs.foldl (fun a c => 10 * a + (c.toNat - 48)) 0

/-- Filename recognition from `find_missing_nodes` (tortillaconsal.py,
lines 37-41): a regular file whose name fully matches the regular
expression of one-or-more digits followed by `.html` contributes the
digits parsed as an integer.  The `file.suffix == ".html"` pre-check is
subsumed by the full match. -/
def parseNodeFile (name : String) : Option Nat :=
  let cs := name.data
  let n := cs.length
  if decide (5 < n) && decide (cs.drop (n - 5) = htmlSuffix)
      && (cs.take (n - 5)).all Char.isDigit then
    some (digitsToNat (cs.take (n - 5)))
  else none

/-- Backup node-set scanner (tortillaconsal.py, lines 29-41): the two
candidate directory layouts are given as their lists of regular-file
names; every parseable filename contributes its integer to the set.
The Python `set` is represented by the duplicate-free list of scanned
values; the code only ever uses membership, emptiness and the sorted
enumeration of the set, all of which this representation preserves. -/
def scanBackup (files1 files2 : List String) : List Nat :=
  ((files1 ++ files2).filterMap parseNodeFile).dedup

/-- Forward linear probing loop (tortillaconsal.py, lines 92-105):
starting at `test` with current best `acc`, while the probe succeeds the
best becomes the probed identifier and probing advances; the first
failure (non-200 or exception) stops the loop.  Returns the final best
value and the list of probed identifiers in order.  The source runs it
with `fuel = 200` starting from the scraped maximum. -/
def refineLoop (probe : Nat → Bool) : Nat → Nat → Nat → Nat × List Nat
  | 0, _, acc => (acc, [])
  | fuel + 1, test, acc =>
    if probe test then
      let r := refineLoop probe fuel (test + 1) test
      (r.1, test :: r.2)
    else (acc, [test])

/-- Number of consecutive successful probes starting at `start`, capped
at `fuel`.  Used to state what `refineLoop` computes. -/
def consecCount (probe : Nat → Bool) : Nat → Nat → Nat
  | _, 0 => 0
  | start, fuel + 1 =>
    if probe start then consecCount probe (start + 1) fuel + 1 else 0

/-- Live-maximum refinement (tortillaconsal.py, lines 92-109): the loop
`for test_node in range(max_live_node, max_live_node + 200)` with
`actual_max` initialised to the scraped maximum. -/
def refineMax (maxLive : Nat) (probe : Nat → Bool) : Nat :=
  (refineLoop probe 200 maxLive maxLive).1

/-- Python tuple ordering on pairs, as used by `sorted(gaps_found)`
(tortillaconsal.py, line 148). -/
def gapLe (a b : Nat × Nat) : Prop :=
  a.1 < b.1 ∨ (a.1 = b.1 ∧ a.2 ≤ b.2)

instance : DecidableRel gapLe := fun a b =>
  inferInstanceAs (Decidable (a.1 < b.1 ∨ (a.1 = b.1 ∧ a.2 ≤ b.2)))

instance : IsTotal (Nat × Nat) gapLe :=
  ⟨by
    intro a b
    obtain ⟨a1, a2⟩ := a
    obtain ⟨b1, b2⟩ := b
    simp only [gapLe]
    omega⟩

instance : IsTrans (Nat × Nat) gapLe :=
  ⟨by
    intro a b c hab hbc
    obtain ⟨a1, a2⟩ := a
    obtain ⟨b1, b2⟩ := b
    obtain ⟨c1, c2⟩ := c
    simp only [gapLe] at hab hbc ⊢
    omega⟩

/-- Gap extraction between consecutive elements of the sorted backup list
(tortillaconsal.py, lines 132-137): for each adjacent pair with a
difference greater than 1, the half-open interval from the lower
element plus one up to the upper element. -/
def consecutiveGaps : List Nat → List (Nat × Nat)
  | a :: b :: rest =>
    (if a + 1 < b then [(a + 1, b)] else []) ++ consecutiveGaps (b :: rest)
  | _ => []

/-- Full `gaps_found` construction (tortillaconsal.py, lines 129-146):
consecutive-element gaps, then the tail interval from the last backup
node plus one to `actual_max + 1` when the last backup node is below
`actual_max`, then the head interval from 1 to the first backup node
when that node exceeds 1. -/
def gapsFound (sortedBackup : List Nat) (actualMax : Nat) : List (Nat × Nat) :=
  consecutiveGaps sortedBackup
    ++ (match sortedBackup.getLast? with
        | some b => if b < actualMax then [(b + 1, actualMax + 1)] else []
        | none => [])
    ++ (match sortedBackup.head? with
        | some a => if 1 < a then [(1, a)] else []
        | none => [])

/-- The sorted gap list `gaps_list = sorted(gaps_found)`
(tortillaconsal.py, line 148). -/
def computeGaps (sortedBackup : List Nat) (actualMax : Nat) : List (Nat × Nat) :=
  List.insertionSort gapLe (gapsFound sortedBackup actualMax)

/-- The half-open integer range `range(gap_start, gap_end)` of a gap. -/
def gapRange (g : Nat × Nat) : List Nat :=
  List.range' g.1 (g.2 - g.1)

/-- The ascending enumeration `sorted(existing_in_backup)` of the backup
set (tortillaconsal.py, line 128). -/
def sortedBackupList (backup : List Nat) : List Nat :=
  List.insertionSort (· ≤ ·) backup

/-- Reconciliation of a nonempty backup set against live maximum
`actualMax` (tortillaconsal.py, lines 113-194).  Returns the Missing
Identifier List together with the list of identifiers submitted to the
probe, in order.  The candidate range `range(1, actual_max + 1)` has
`actualMax` elements, so the large-range branch is taken exactly when
`actualMax > 1000`; there the candidates are the members of the sorted
gap intervals, otherwise every identifier of the range not already in
the backup.  Confirmed identifiers are returned as
`sorted(missing_nodes)`. -/
def reconcile (backup : List Nat) (actualMax : Nat) (probe : Nat → Bool) :
    List Nat × List Nat :=
  if 1000 < actualMax then
    let gaps := computeGaps (sortedBackupList backup) actualMax
    let cand := ((gaps.map gapRange).flatten)
    (List.insertionSort (· ≤ ·) (cand.filter probe), cand)
  else
    let cand := (List.range' 1 actualMax).filter (fun n => decide (n ∉ backup))
    (List.insertionSort (· ≤ ·) (cand.filter probe), cand)

/-- Network actions issued by `find_missing_nodes`, in order: the GET of
the section homepage, the GET of the archive listing, and HEAD probes of
individual node identifiers. -/
inductive Act
  | scrapeHomepage
  | scrapeArchiveListing
  | probeOf (n : Nat)
deriving DecidableEq, Repr

/-- Model of `TortillaconsalBackupLogic.find_missing_nodes`
(tortillaconsal.py, lines 26-204).  Inputs: the regular-file names of
the two candidate backup directories, the node path, the identifiers
scraped from the section homepage and from the archive listing (`none`
models a failed or non-200 fetch, whose contribution is empty), and the
probe oracle.  Output: the Missing Identifier List and the trace of
network actions issued.  The archive listing is fetched only for the
`bitacora` path.  When the scanned backup set is empty the function
returns immediately with no network action; when no live node was
scraped it returns after the scrapes with no probe. -/
def find_missing_nodes (files1 files2 : List String) (nodePath : String)
    (homeScrape archiveScrape : Option (List Nat)) (probe : Nat → Bool) :
    List Nat × List Act :=
  let backupNodes := scanBackup files1 files2
  if backupNodes = [] then ([], [])
  else
    let isBitacora : Bool := nodePath == "bitacora"
    let scrapeActs :=
      Act.scrapeHomepage :: (if isBitacora then [Act.scrapeArchiveListing] else [])
    let liveNodes :=
      homeScrape.getD [] ++ (if isBitacora then archiveScrape.getD [] else [])
    if liveNodes = [] then ([], scrapeActs)
    else
      let maxLive := liveNodes.foldl Nat.max 0
      let refined := refineLoop probe 200 maxLive maxLive
      let rc := reconcile backupNodes refined.1 probe
      (rc.1, scrapeActs ++ refined.2.map Act.probeOf ++ rc.2.map Act.probeOf)

/-- Fuel-indexed binary search loop (tortillaconsal.py, lines 244-254):
while `low < high`, probe the upward-biased midpoint; on success the
midpoint becomes `low`, on failure (non-200 or exception) `high`
becomes the midpoint minus one.  Returns the final `low` and the number
of probes issued.  Each iteration strictly shrinks `high - low`, so
fuel `high - low` always suffices. -/
def binSearchAux (probe : Nat → Bool) : Nat → Nat → Nat → Nat × Nat
  | 0, low, _ => (low, 0)
  | fuel + 1, low, high =>
    if low < high then
      let mid := (low + high + 1) / 2
      if probe mid then
        let r := binSearchAux probe fuel mid high
        (r.1, r.2 + 1)
      else
        let r := binSearchAux probe fuel low (mid - 1)
        (r.1, r.2 + 1)
    else (low, 0)

/-- The binary search of `download_pagination_pages`, run with exactly
the fuel its termination argument requires. -/
def binSearchRun (probe : Nat → Bool) (low high : Nat) : Nat × Nat :=
  binSearchAux probe (high - low) low high

/-- The fixed upper-bound candidate list of `download_pagination_pages`
(tortillaconsal.py, line 229). -/
def POWER_CANDIDATES : List Nat := [10, 100, 500, 1000]

/-- Upper-bound seeking loop (tortillaconsal.py, lines 229-240): probe
each candidate in order; a success makes the candidate the new `low`, a
failure (non-200 or exception) makes it `high` and stops the loop. -/
def powerLoop (probe : Nat → Bool) : List Nat → Nat → Nat → Nat × Nat
  | [], low, high => (low, high)
  | c :: cs, low, high =>
    if probe c then powerLoop probe cs c high else (low, c)

/-- The pagination maximum computed by `download_pagination_pages` after
the page-0 gate: candidate loop from `low = 0`, `high = 1000`, then
binary search. -/
def paginationMax (probe : Nat → Bool) (cands : List Nat) : Nat :=
  let lh := powerLoop probe cands 0 1000
  (binSearchRun probe lh.1 lh.2).1

/-- Model of `TortillaconsalBackupLogic.download_pagination_pages`
(tortillaconsal.py, lines 206-300), parameterised by the upper-bound
candidate list (the source uses `POWER_CANDIDATES`).  `probe p` stands
for the HEAD of `?page=p` returning 200.  Returns the list of page
indices for which a wget fetch is dispatched: none when page 0 is
unreachable or when only page 0 exists, else every index
`0 .. max_pages` inclusive; individual wget failures only affect
logging, never the iteration. -/
def download_pagination_pages (probe : Nat → Bool) (cands : List Nat) : List Nat :=
  if probe 0 then
    let maxPages := paginationMax probe cands
    if maxPages = 0 then [] else List.range (maxPages + 1)
  else []

/-- Polling loop of `wait_for_completion.main` (wait_for_completion.py,
lines 65-74): while the marker is absent and `elapsed < timeout`, sleep
and add `check_interval` to `elapsed`.  `markerAt e` models
`completion_file.exists()` evaluated at elapsed time `e`.  The fuel
bounds the iteration count; `timeout + 1` suffices whenever the
interval is at least 1 (the Python loop does not terminate on an absent
marker when the interval is 0). -/
def pollUntil (markerAt : Nat → Bool) (timeout interval : Nat) : Nat → Nat → Nat
  | 0, elapsed => elapsed
  | fuel + 1, elapsed =>
    if !markerAt elapsed && decide (elapsed < timeout) then
      pollUntil markerAt timeout interval fuel (elapsed + interval)
    else elapsed

/-- Model of `wait_for_completion.main` (wait_for_completion.py, lines
44-102).  Returns the process exit code and whether the marker file was
deleted.  An existing marker exits 0 at once (after deletion); after
the timed-out loop an absent marker falls back to the directory
modification age: strictly less than 3600 seconds exits 0, otherwise
(or on an `OSError` reading the mtime, modelled by `none`) exits 1. -/
def wait_for_completion_main (markerAt : Nat → Bool) (timeout interval : Nat)
    (dirExists : Bool) (dirAge : Option Nat) : Nat × Bool :=
  if markerAt 0 then (0, true)
  else
    let e := pollUntil markerAt timeout interval (timeout + 1) 0
    if markerAt e then (0, true)
    else if dirExists then
      match dirAge with
      | some age => if age < 3600 then (0, false) else (1, false)
      | none => (1, false)
    else (1, false)

/-- Outcomes of the effectful steps of `backup_website.main`, as
environment inputs: whether each step completes without raising. -/
structure RunEnv where
  loggingOk : Bool
  chdirOk : Bool
  wgetOk : Bool
  enableNodeDetection : Bool
  nodeDetectionOk : Bool
  successEmailOk : Bool
  failureEmailOk : Bool

/-- Observable events of one execution of `backup_website.main`. -/
inductive MainEv
  | touchMarker
  | emailAttempt (ok : Bool)
  | reraised
deriving DecidableEq, BEq, Repr

/-- Model of the orchestration `main` (backup_website.py, lines
158-256).  The try-body runs logging setup, directory change and the
wget mirror in order; a failure of any of them enters the except path,
which sends the failure email, touches the completion marker and
re-raises.  Node-detection failures and email failures are caught and
swallowed where they occur, so they never change the path taken.  The
clean path sends the success email and touches the marker.  Failures of
`touch()` itself are caught (lines 226-227 and 253-254), so a touch is
attempted exactly once on every path. -/
def backup_main_events (e : RunEnv) : List MainEv :=
  if !e.loggingOk then
    [MainEv.emailAttempt e.failureEmailOk, MainEv.touchMarker, MainEv.reraised]
  else if !e.chdirOk then
    [MainEv.emailAttempt e.failureEmailOk, MainEv.touchMarker, MainEv.reraised]
  else if !e.wgetOk then
    [MainEv.emailAttempt e.failureEmailOk, MainEv.touchMarker, MainEv.reraised]
  else
    [MainEv.emailAttempt e.successEmailOk, MainEv.touchMarker]

/-- The two node paths checked by the tortillaconsal logic
(tortillaconsal.py, line 16). -/
def NODE_PATHS : List String := ["bitacora", "tortilla"]

/-- Environment of one `TortillaconsalBackupLogic.run` execution:
per-path probe oracles, directory listings and scrape results.
`probeNode1 p` models the HEAD of `<base_url>/<p>/node/1` returning 200
(exceptions count as failure, tortillaconsal.py lines 357-365). -/
structure SiteEnv where
  probeNode1 : String → Bool
  pageProbe : String → Nat → Bool
  files1 : String → List String
  files2 : String → List String
  homeScrape : String → Option (List Nat)
  archiveScrape : String → Option (List Nat)
  nodeProbe : String → Nat → Bool

/-- Model of `TortillaconsalBackupLogic.verify_node_structure`
(tortillaconsal.py, lines 353-366): true when the probe of
`<path>/node/1` succeeds for at least one known node path. -/
def verify_node_structure (env : SiteEnv) : Bool :=
  NODE_PATHS.any env.probeNode1

/-- External fetches dispatched by `run`: one wget invocation per
pagination page and one per missing node. -/
inductive RunStep
  | paginationFetch (path : String) (page : Nat)
  | missingFetch (path : String) (node : Nat)
deriving DecidableEq, Repr

/-- Model of `TortillaconsalBackupLogic.run` (tortillaconsal.py, lines
368-399): when no known node structure verifies, return immediately
with no dispatched fetch; otherwise process each node path in order,
dispatching its pagination-page fetches and then one fetch per missing
node found (`download_missing_nodes`, lines 302-351, dispatches exactly
one wget per listed node; batching only affects logging). -/
def tortillaconsal_run (env : SiteEnv) : List RunStep :=
  if verify_node_structure env then
    (NODE_PATHS.map (fun p =>
      (download_pagination_pages (env.pageProbe p) POWER_CANDIDATES).map
          (RunStep.paginationFetch p)
        ++ ((find_missing_nodes (env.files1 p) (env.files2 p) p
              (env.homeScrape p) (env.archiveScrape p) (env.nodeProbe p)).1.map
            (RunStep.missingFetch p)))).flatten
  else []

/-- Environment in which every `node/1` verification probe fails; all
other collaborators are inert.  Used to exercise the early return of
`tortillaconsal_run`. -/
def allSectionsDown : SiteEnv where
  probeNode1 := fun _ => false
  pageProbe := fun _ _ => false
  files1 := fun _ => []
  files2 := fun _ => []
  homeScrape := fun _ => none
  archiveScrape := fun _ => none
  nodeProbe := fun _ _ => false

/-- C1: for archived identifiers 1, 2, 5 and a live scrape reporting
maximum 10, with every probe of an identifier in 1..10 succeeding (and
11 failing, so the refinement keeps the maximum at 10), the Missing
Identifier List is exactly the ascending list 3, 4, 6, 7, 8, 9, 10; the
small-range branch probes each candidate of 1..10 outside the backup
individually, after the homepage scrape and the two refinement probes. -/
theorem find_missing_nodes_small_range_example :
    (find_missing_nodes ["1.html", "2.html", "5.html"] [] ("tortilla") (some [10]) none
        (fun n => decide (1 ≤ n ∧ n ≤ 10))).1 = [3, 4, 6, 7, 8, 9, 10] ∧
    (find_missing_nodes ["1.html", "2.html", "5.html"] [] ("tortilla") (some [10]) none
        (fun n => decide (1 ≤ n ∧ n ≤ 10))).2
      = [Act.scrapeHomepage, Act.probeOf 10, Act.probeOf 11, Act.probeOf 3, Act.probeOf 4,
          Act.probeOf 6, Act.probeOf 7, Act.probeOf 8, Act.probeOf 9, Act.probeOf 10] ∧
    List.Sorted (· < ·) ([3, 4, 6, 7, 8, 9, 10] : List Nat) :=
  ⟨by decide, by decide, by decide⟩

/-- C2: gap intervals over the archived set scanned from files 1.html,
2.html, 5.html, 100.html with live maximum 105 are exactly
(3,5), (6,100), (101,106): half-open intervals from consecutive sorted
elements, tail interval ending at live maximum plus one; and over the
set 2, 5 with live maximum 5 the head interval (1,2) appears because
the first archived element is not 1. -/
theorem compute_gaps_example :
    computeGaps (sortedBackupList
        (scanBackup ["1.html", "2.html", "5.html", "100.html"] [])) 105
      = [(3, 5), (6, 100), (101, 106)] ∧
    computeGaps (sortedBackupList [2, 5]) 5 = [(1, 2), (3, 5)] :=
  ⟨by decide, by decide⟩

/-- C7: when the scan of both candidate directory layouts yields no
`digits.html` file, `find_missing_nodes` returns the empty list at once
with an empty network-action trace: no scrape and no probe is issued. -/
theorem find_missing_nodes_empty_backup (files1 files2 : List String)
    (nodePath : String) (homeScrape archiveScrape : Option (List Nat))
    (probe : Nat → Bool) (h : scanBackup files1 files2 = []) :
    find_missing_nodes files1 files2 nodePath homeScrape archiveScrape probe = ([], []) := by
  unfold find_missing_nodes
  simp [h]

/-- Concrete run of the empty-backup early return: two non-matching
filenames, a live scrape and an always-true probe, with no action issued. -/
theorem find_missing_nodes_empty_backup_witness :
    find_missing_nodes ["readme.txt", "foo.html"] [] ("tortilla") (some [10]) none
      (fun _ => true) = ([], []) :=
  find_missing_nodes_empty_backup _ _ _ _ _ _ (by decide)

/-- C8: on every execution path of `backup_website.main` - the clean
path and every except path entered by a failing critical step - the
completion marker is touched exactly once. -/
theorem backup_main_touches_marker_once (e : RunEnv) :
    (backup_main_events e).count MainEv.touchMarker = 1 := by
  obtain ⟨l, c, w, en, nd, se, fe⟩ := e
  cases l <;> cases c <;> cases w <;> cases se <;> cases fe <;> rfl

/-- C9: the completion poller exits 0 immediately (deleting the marker)
whenever the marker exists at the first check; with the marker absent
throughout, after the timeout it exits 0 when the directory age is
under 3600 seconds and 1 otherwise; in particular with timeout 1 and
interval 1 it exits 0 on a fresh marker, exits 1 with the marker absent
and the directory 7200 seconds old, and exits 0 with the marker absent
and the directory 100 seconds old. -/
theorem wait_for_completion_exit_codes :
    (∀ (markerAt : Nat → Bool) (timeout interval : Nat) (dirExists : Bool)
        (dirAge : Option Nat), markerAt 0 = true →
        wait_for_completion_main markerAt timeout interval dirExists dirAge = (0, true)) ∧
    (∀ (timeout interval dirAge : Nat), 1 ≤ interval →
        wait_for_completion_main (fun _ => false) timeout interval true (some dirAge)
          = if dirAge < 3600 then (0, false) else (1, false)) ∧
    wait_for_completion_main (fun _ => true) 1 1 true (some 0) = (0, true) ∧
    wait_for_completion_main (fun _ => false) 1 1 true (some 7200) = (1, false) ∧
    wait_for_completion_main (fun _ => false) 1 1 true (some 100) = (0, false) := by
  refine ⟨?_, ?_, by decide, by decide, by decide⟩
  · intro mk t i dE dA h
    unfold wait_for_completion_main
    rw [if_pos h]
  · intro t i dA hi
    unfold wait_for_completion_main
    simp

/-- Concrete applications of the poller theorem: an always-present
marker with different timeout and interval, and an absent marker with a
50-second-old directory. -/
theorem wait_for_completion_exit_codes_witness :
    wait_for_completion_main (fun _ => true) 3 2 false none = (0, true) ∧
    wait_for_completion_main (fun _ => false) 5 2 true (some 50) = (0, false) := by
  refine ⟨wait_for_completion_exit_codes.1 _ 3 2 false none rfl, ?_⟩
  have h := wait_for_completion_exit_codes.2.1 5 2 50 (by decide)
  simpa using h

/-- C10: when the HEAD probe of `node/1` fails for every known node
path, `run` returns right after the verification probes: no pagination
fetch and no missing-node fetch is dispatched for any section. -/
theorem run_skips_without_node_structure (env : SiteEnv)
    (h : ∀ p ∈ NODE_PATHS, env.probeNode1 p = false) :
    tortillaconsal_run env = [] := by
  have hv : verify_node_structure env = false := by
    unfold verify_node_structure
    refine List.any_eq_false.mpr ?_
    intro x hx
    simp [h x hx]
  unfold tortillaconsal_run
  simp [hv]

/-- Concrete run of the early return: the environment in which every
verification probe fails dispatches nothing. -/
theorem run_skips_without_node_structure_witness :
    tortillaconsal_run allSectionsDown = [] :=
  run_skips_without_node_structure allSectionsDown (by intro p _; rfl)

/-- The final value of the forward probing loop: the start plus the
count of consecutive successes minus one, or the initial accumulator
when the very first probe fails. -/
theorem refineLoop_fst (probe : Nat → Bool) :
    ∀ fuel test acc, (refineLoop probe fuel test acc).1
      = if consecCount probe test fuel = 0 then acc
        else test + consecCount probe test fuel - 1 := by
  intro fuel
  induction fuel with
  | zero => intro test acc; simp [refineLoop, consecCount]
  | succ fuel ih =>
    intro test acc
    by_cases hp : probe test
    · have h := ih (test + 1) test
      simp only [refineLoop, consecCount, hp, if_true]
      rw [h]
      rcases Nat.eq_zero_or_pos (consecCount probe (test + 1) fuel) with h0 | h0
      · simp [h0]
      · rw [if_neg (by omega), if_neg (by omega)]
        omega
    · simp [refineLoop, consecCount, hp]

/-- Number of probes issued by the forward probing loop. -/
theorem refineLoop_len (probe : Nat → Bool) :
    ∀ fuel test acc, (refineLoop probe fuel test acc).2.length
      = min (consecCount probe test fuel + 1) fuel := by
  intro fuel
  induction fuel with
  | zero => intro test acc; simp [refineLoop]
  | succ fuel ih =>
    intro test acc
    by_cases hp : probe test
    · have h := ih (test + 1) test
      simp only [refineLoop, consecCount, hp, if_true, List.length_cons]
      omega
    · simp [refineLoop, consecCount, hp]

/-- The consecutive-success count never exceeds the fuel. -/
theorem consecCount_le (probe : Nat → Bool) :
    ∀ fuel start, consecCount probe start fuel ≤ fuel := by
  intro fuel
  induction fuel with
  | zero => intro start; simp [consecCount]
  | succ fuel ih =>
    intro start
    by_cases hp : probe start
    · have := ih (start + 1)
      simp only [consecCount, hp, if_true]
      omega
    · simp [consecCount, hp]

/-- Every offset below the consecutive-success count is a confirmed
probe. -/
theorem consecCount_true (probe : Nat → Bool) :
    ∀ fuel start k, k < consecCount probe start fuel → probe (start + k) = true := by
  intro fuel
  induction fuel with
  | zero => intro start k hk; simp [consecCount] at hk
  | succ fuel ih =>
    intro start k hk
    by_cases hp : probe start
    · rw [consecCount, if_pos hp] at hk
      cases k with
      | zero => simpa using hp
      | succ k =>
        have := ih (start + 1) k (by omega)
        have harg : start + 1 + k = start + (k + 1) := by omega
        rwa [harg] at this
    · rw [consecCount, if_neg hp] at hk
      omega

/-- When the loop stops before exhausting its fuel, the probe right
after the last confirmed identifier failed. -/
theorem consecCount_stop (probe : Nat → Bool) :
    ∀ fuel start, consecCount probe start fuel < fuel →
      probe (start + consecCount probe start fuel) = false := by
  intro fuel
  induction fuel with
  | zero => intro start h; omega
  | succ fuel ih =>
    intro start h
    by_cases hp : probe start
    · rw [consecCount, if_pos hp] at h ⊢
      have := ih (start + 1) (by omega)
      have harg : start + 1 + consecCount probe (start + 1) fuel
          = start + (consecCount probe (start + 1) fuel + 1) := by omega
      rwa [harg] at this
    · rw [consecCount, if_neg hp]
      simpa using hp

/-- C3: the refined live maximum is at least the scraped maximum and at
most 200 above it; at most 200 forward probes are issued; the result is
the larger of the scraped maximum and the furthest
consecutively-confirmed probe (the scraped maximum plus the number of
consecutive successes, minus one); all identifiers below that count are
confirmed, and when fewer than 200 probes succeeded the loop stopped at
an explicit probe failure. -/
theorem refine_max_characterization (m : Nat) (probe : Nat → Bool) :
    m ≤ refineMax m probe ∧ refineMax m probe ≤ m + 200 ∧
    (refineLoop probe 200 m m).2.length ≤ 200 ∧
    refineMax m probe = max m (m + consecCount probe m 200 - 1) ∧
    (∀ k, k < consecCount probe m 200 → probe (m + k) = true) ∧
    (consecCount probe m 200 < 200 → probe (m + consecCount probe m 200) = false) := by
  have h1 := refineLoop_fst probe 200 m m
  have h2 := refineLoop_len probe 200 m m
  have h3 := consecCount_le probe 200 m
  refine ⟨?_, ?_, ?_, ?_, fun k hk => consecCount_true probe 200 m k hk,
    fun h => consecCount_stop probe 200 m h⟩
  · rw [refineMax, h1]; split <;> omega
  · rw [refineMax, h1]; split <;> omega
  · omega
  · rw [refineMax, h1, Nat.max_def]
    split <;> split <;> omega

/-- Concrete application of the refinement theorem with scraped maximum
10 and exactly the identifiers up to 12 reachable: the refined maximum
is 12, identifier 11 is among the confirmed probes, and the stopping
probe at 13 failed. -/
theorem refine_max_characterization_witness :
    refineMax 10 (fun n => decide (n ≤ 12)) = 12 ∧
    (fun n => decide (n ≤ 12)) (10 + 1) = true ∧
    (fun n => decide (n ≤ 12)) (10 + consecCount (fun n => decide (n ≤ 12)) 10 200)
      = false := by
  have h := refine_max_characterization 10 (fun n => decide (n ≤ 12))
  exact ⟨by decide, h.2.2.2.2.1 1 (by decide), h.2.2.2.2.2 (by decide)⟩

/-- A run that starts with the interval already empty issues no probe. -/
theorem binSearchAux_count_zero (probe : Nat → Bool) :
    ∀ fuel low high, ¬ low < high → (binSearchAux probe fuel low high).2 = 0 := by
  intro fuel low high h
  cases fuel with
  | zero => rfl
  | succ fuel => simp [binSearchAux, h]

/-- Extra fuel beyond the interval size does not change the run: the
loop always reaches `low = high` within `high - low` iterations. -/
theorem binSearchAux_fuel_stable (probe : Nat → Bool) :
    ∀ fuel extra low high, high - low ≤ fuel →
      binSearchAux probe (fuel + extra) low high = binSearchAux probe fuel low high := by
  intro fuel
  induction fuel with
  | zero =>
    intro extra low high hle
    cases extra with
    | zero => rfl
    | succ e =>
      have h : ¬ low < high := by omega
      simp [binSearchAux, h]
  | succ fuel ih =>
    intro extra low high hle
    have hsucc : fuel + 1 + extra = (fuel + extra) + 1 := by omega
    rw [hsucc]
    by_cases hlh : low < high
    · rw [binSearchAux, binSearchAux]
      simp only [if_pos hlh]
      by_cases hp : probe ((low + high + 1) / 2)
      · rw [if_pos hp, if_pos hp]
        rw [ih extra ((low + high + 1) / 2) high (by omega)]
      · rw [if_neg hp, if_neg hp]
        rw [ih extra low ((low + high + 1) / 2 - 1) (by omega)]
    · simp [binSearchAux, hlh]

/-- The returned index is always one whose probe succeeded, provided the
initial lower bound was confirmed: `low` is only ever replaced by a
midpoint whose probe returned 200. -/
theorem binSearchAux_probe_true (probe : Nat → Bool) :
    ∀ fuel low high, probe low = true →
      probe (binSearchAux probe fuel low high).1 = true := by
  intro fuel
  induction fuel with
  | zero => intro low high h; exact h
  | succ fuel ih =>
    intro low high h
    by_cases hlh : low < high
    · rw [binSearchAux]
      simp only [if_pos hlh]
      by_cases hp : probe ((low + high + 1) / 2)
      · rw [if_pos hp]
        exact ih _ _ hp
      · rw [if_neg hp]
        exact ih _ _ h
    · simp [binSearchAux, hlh, h]

/-- The number of probes is logarithmic in the interval size: each step
at least halves `high - low`. -/
theorem binSearchAux_count_le (probe : Nat → Bool) :
    ∀ fuel low high, high - low ≤ fuel →
      (binSearchAux probe fuel low high).2 ≤ Nat.log 2 (high - low) + 1 := by
  intro fuel
  induction fuel with
  | zero => intro low high hle; simp [binSearchAux]
  | succ fuel ih =>
    intro low high hle
    by_cases hlh : low < high
    · rw [binSearchAux]
      simp only [if_pos hlh]
      have hhalf : ∀ l h, l ≤ h → h - l ≤ (high - low) / 2 → h - l ≤ fuel →
          (binSearchAux probe fuel l h).2 + 1 ≤ Nat.log 2 (high - low) + 1 := by
        intro l h hlh2 hsz hfu
        rcases Nat.eq_zero_or_pos (h - l) with h0 | h0
        · have := binSearchAux_count_zero probe fuel l h (by omega)
          omega
        · have hc := ih l h hfu
          have hlog : Nat.log 2 (h - l) + 1 ≤ Nat.log 2 (high - low) := by
            have hmul : Nat.log 2 ((h - l) * 2) = Nat.log 2 (h - l) + 1 :=
              Nat.log_mul_base (by omega) (by omega)
            have hmono : Nat.log 2 ((h - l) * 2) ≤ Nat.log 2 (high - low) :=
              Nat.log_mono_right (by omega)
            omega
          omega
      by_cases hp : probe ((low + high + 1) / 2)
      · rw [if_pos hp]
        exact hhalf ((low + high + 1) / 2) high (by omega) (by omega) (by omega)
      · rw [if_neg hp]
        exact hhalf low ((low + high + 1) / 2 - 1) (by omega) (by omega) (by omega)
    · have := binSearchAux_count_zero probe (fuel + 1) low high hlh
      omega

/-- The candidate loop can only move `low` to a candidate whose probe
succeeded. -/
theorem powerLoop_probe_true (probe : Nat → Bool) :
    ∀ cs low high, probe low = true →
      probe (powerLoop probe cs low high).1 = true := by
  intro cs
  induction cs with
  | nil => intro low high h; exact h
  | cons c cs ih =>
    intro low high h
    by_cases hc : probe c
    · simp only [powerLoop, hc, if_true]
      exact ih c high hc
    · simp [powerLoop, hc, h]

/-- Binary search against a downward-closed probe (pages `0..t`
reachable, all later pages not): with a confirmed lower bound the
result is the reachability threshold, capped by the upper bound. -/
theorem binSearchAux_threshold (t : Nat) :
    ∀ fuel low high, high - low ≤ fuel → low ≤ t → low ≤ high →
      (binSearchAux (fun n => decide (n ≤ t)) fuel low high).1 = min t high := by
  intro fuel
  induction fuel with
  | zero =>
    intro low high h1 h2 h3
    have : high = low := by omega
    subst this
    simp [binSearchAux]
    omega
  | succ fuel ih =>
    intro low high h1 h2 h3
    by_cases hlh : low < high
    · rw [binSearchAux]
      rw [if_pos hlh]
      by_cases hpm : (low + high + 1) / 2 ≤ t
      · rw [if_pos (by simpa using hpm)]
        have := ih ((low + high + 1) / 2) high (by omega) hpm (by omega)
        simpa using this
      · rw [if_neg (by simpa using hpm)]
        have := ih low ((low + high + 1) / 2 - 1) (by omega) h2 (by omega)
        simp only []
        rw [this]
        omega
    · have : high = low := by omega
      subst this
      simp [binSearchAux, hlh]
      omega

/-- The candidate loop with the pages-up-to-5 probe keeps the lower
bound at most 5 and the upper bound at least 6, whatever the candidate
list. -/
theorem powerLoop_le5 :
    ∀ cs low high, low ≤ 5 → 6 ≤ high →
      (powerLoop (fun n => decide (n ≤ 5)) cs low high).1 ≤ 5 ∧
      6 ≤ (powerLoop (fun n => decide (n ≤ 5)) cs low high).2 := by
  intro cs
  induction cs with
  | nil => intro low high h1 h2; exact ⟨h1, h2⟩
  | cons c cs ih =>
    intro low high h1 h2
    by_cases hc : c ≤ 5
    · rw [powerLoop, if_pos (by simpa using hc)]
      exact ih c high hc h2
    · rw [powerLoop, if_neg (by simpa using hc)]
      exact ⟨h1, by omega⟩

/-- C4: for a site whose pagination pages 0 to 5 are reachable and all
later pages are not, the enumeration dispatches exactly one fetch per
page index 0 to 5 - six fetches - whatever upper-bound candidate list
the boundary discovery tries. -/
theorem download_pagination_pages_six_fetches (cands : List Nat) :
    download_pagination_pages (fun n => decide (n ≤ 5)) cands = [0, 1, 2, 3, 4, 5] ∧
    (download_pagination_pages (fun n => decide (n ≤ 5)) cands).length = 6 := by
  have hpl := powerLoop_le5 cands 0 1000 (by omega) (by omega)
  have hmax : paginationMax (fun n => decide (n ≤ 5)) cands = 5 := by
    unfold paginationMax binSearchRun
    have := binSearchAux_threshold 5
      ((powerLoop (fun n => decide (n ≤ 5)) cands 0 1000).2
        - (powerLoop (fun n => decide (n ≤ 5)) cands 0 1000).1)
      (powerLoop (fun n => decide (n ≤ 5)) cands 0 1000).1
      (powerLoop (fun n => decide (n ≤ 5)) cands 0 1000).2
      (by omega) (by omega) (by omega)
    rw [this]
    omega
  constructor
  · unfold download_pagination_pages
    rw [if_pos (by decide), hmax]
    rfl
  · unfold download_pagination_pages
    rw [if_pos (by decide), hmax]
    rfl

/-- C5: the pagination binary search always terminates - fuel equal to
the interval size `high - low` already suffices, extra fuel changes
nothing because every step strictly shrinks the interval - in at most
logarithmically many probes, and it never returns an index whose
deciding probe failed: with a confirmed lower bound (page 0 or a
confirmed candidate bound) the returned index is confirmed, and in the
full pipeline a reachable page 0 guarantees the returned pagination
maximum is a page whose probe succeeded. -/
theorem binary_search_terminates_and_confirmed (probe : Nat → Bool)
    (low high fuel : Nat) :
    (high - low ≤ fuel →
      binSearchAux probe fuel low high = binSearchRun probe low high) ∧
    (probe low = true → probe (binSearchRun probe low high).1 = true) ∧
    (binSearchRun probe low high).2 ≤ Nat.log 2 (high - low) + 1 ∧
    (∀ cands, probe 0 = true → probe (paginationMax probe cands) = true) := by
  refine ⟨?_, ?_, ?_, ?_⟩
  · intro hle
    unfold binSearchRun
    have heq : fuel = (high - low) + (fuel - (high - low)) := by omega
    rw [heq]
    exact binSearchAux_fuel_stable probe (high - low) (fuel - (high - low)) low high
      (by omega)
  · intro h
    exact binSearchAux_probe_true probe (high - low) low high h
  · exact binSearchAux_count_le probe (high - low) low high (by omega)
  · intro cands h0
    unfold paginationMax binSearchRun
    exact binSearchAux_probe_true probe _ _ _ (powerLoop_probe_true probe cands 0 1000 h0)

/-- Concrete application of the binary-search theorem with the
pages-up-to-5 probe on the interval 0..10: generous fuel gives the same
run, the returned index probes true, the probe count respects the
logarithmic bound, and the pipeline maximum is confirmed. -/
theorem binary_search_terminates_and_confirmed_witness :
    binSearchAux (fun n => decide (n ≤ 5)) 20 0 10
        = binSearchRun (fun n => decide (n ≤ 5)) 0 10 ∧
    (fun n => decide (n ≤ 5)) (binSearchRun (fun n => decide (n ≤ 5)) 0 10).1 = true ∧
    (binSearchRun (fun n => decide (n ≤ 5)) 0 10).2 ≤ Nat.log 2 (10 - 0) + 1 ∧
    (fun n => decide (n ≤ 5))
        (paginationMax (fun n => decide (n ≤ 5)) POWER_CANDIDATES) = true := by
  have h := binary_search_terminates_and_confirmed (fun n => decide (n ≤ 5)) 0 10 20
  exact ⟨h.1 (by omega), h.2.1 (by decide), h.2.2.1, h.2.2.2 POWER_CANDIDATES (by decide)⟩

/-- In a strictly sorted list the head is a lower bound. -/
theorem sorted_head_min {sb : List Nat} (hs : List.Sorted (· < ·) sb) {a : Nat}
    (h : sb.head? = some a) : ∀ x ∈ sb, a ≤ x := by
  cases sb with
  | nil => simp at h
  | cons y t =>
    simp only [List.head?_cons, Option.some.injEq] at h
    subst h
    intro x hx
    rcases List.mem_cons.mp hx with rfl | hx
    · exact Nat.le_refl x
    · exact Nat.le_of_lt ((List.sorted_cons.mp hs).1 x hx)

/-- In a strictly sorted list the last element is an upper bound. -/
theorem sorted_getLast_max :
    ∀ (sb : List Nat), List.Sorted (· < ·) sb → ∀ {b : Nat}, sb.getLast? = some b →
      ∀ x ∈ sb, x ≤ b := by
  intro sb
  induction sb with
  | nil => intro _ b h; simp at h
  | cons y t ih =>
    intro hs b hb x hx
    cases t with
    | nil =>
      simp only [List.getLast?_singleton, Option.some.injEq] at hb
      subst hb
      rcases List.mem_cons.mp hx with rfl | hx
      · exact Nat.le_refl x
      · simp at hx
    | cons z t' =>
      rw [List.getLast?_cons_cons] at hb
      have hrel := (List.sorted_cons.mp hs).1
      have hs' := (List.sorted_cons.mp hs).2
      rcases List.mem_cons.mp hx with rfl | hx
      · exact Nat.le_of_lt (hrel b (List.mem_of_getLast?_eq_some hb))
      · exact ih hs' hb x hx

/-- Every consecutive-pair gap is the successor of some backup element,
ends at some backup element, and is nonempty. -/
theorem consecutiveGaps_shape :
    ∀ (sb : List Nat) (g : Nat × Nat), g ∈ consecutiveGaps sb →
      ∃ x ∈ sb, ∃ y ∈ sb, g = (x + 1, y) ∧ x + 1 < y := by
  intro sb
  induction sb with
  | nil => intro g hg; simp [consecutiveGaps] at hg
  | cons a t ih =>
    intro g hg
    cases t with
    | nil => simp [consecutiveGaps] at hg
    | cons b rest =>
      rw [consecutiveGaps] at hg
      rcases List.mem_append.mp hg with h1 | h2
      · by_cases hab : a + 1 < b
        · rw [if_pos hab] at h1
          simp only [List.mem_singleton] at h1
          exact ⟨a, by simp, b, by simp, h1, hab⟩
        · rw [if_neg hab] at h1
          simp at h1
      · obtain ⟨x, hx, y, hy, hgeq, hlt⟩ := ih g h2
        exact ⟨x, List.mem_cons_of_mem a hx, y, List.mem_cons_of_mem a hy, hgeq, hlt⟩

/-- No member of a consecutive-pair gap belongs to the (strictly
sorted) backup list the gap was computed from: the gap sits strictly
between two adjacent elements. -/
theorem consecutiveGaps_not_mem :
    ∀ (sb : List Nat), List.Sorted (· < ·) sb → ∀ g ∈ consecutiveGaps sb,
      ∀ n, g.1 ≤ n → n < g.2 → n ∉ sb := by
  intro sb
  induction sb with
  | nil => intro _ g hg; simp [consecutiveGaps] at hg
  | cons a t ih =>
    intro hs g hg n h1 h2
    cases t with
    | nil => simp [consecutiveGaps] at hg
    | cons b rest =>
      have hrel := (List.sorted_cons.mp hs).1
      have hs' := (List.sorted_cons.mp hs).2
      rw [consecutiveGaps] at hg
      rcases List.mem_append.mp hg with hmem | hmem
      · by_cases hab : a + 1 < b
        · rw [if_pos hab] at hmem
          simp only [List.mem_singleton] at hmem
          subst hmem
          simp only at h1 h2
          intro hn
          rcases List.mem_cons.mp hn with rfl | hn
          · omega
          · rcases List.mem_cons.mp hn with rfl | hn
            · omega
            · have := (List.sorted_cons.mp hs').1 n hn
              omega
        · rw [if_neg hab] at hmem
          simp at hmem
      · intro hn
        rcases List.mem_cons.mp hn with rfl | hn
        · obtain ⟨x, hx, y, hy, hgeq, hlt⟩ := consecutiveGaps_shape (b :: rest) g hmem
          have hax : n < x := hrel x hx
          rw [hgeq] at h1
          simp only at h1
          omega
        · exact ih hs' g hmem n h1 h2 hn

/-- Consecutive-pair gaps appear in order: each ends no later than the
next one starts. -/
theorem consecutiveGaps_ordered :
    ∀ (sb : List Nat), List.Sorted (· < ·) sb →
      List.Pairwise (fun g1 g2 => g1.2 ≤ g2.1) (consecutiveGaps sb) := by
  intro sb
  induction sb with
  | nil => intro _; simp [consecutiveGaps]
  | cons a t ih =>
    intro hs
    cases t with
    | nil => simp [consecutiveGaps]
    | cons b rest =>
      have hs' := (List.sorted_cons.mp hs).2
      rw [consecutiveGaps]
      refine List.pairwise_append.mpr ⟨?_, ih hs', ?_⟩
      · split <;> simp
      · intro g1 hg1 g2 hg2
        by_cases hab : a + 1 < b
        · rw [if_pos hab] at hg1
          simp only [List.mem_singleton] at hg1
          subst hg1
          obtain ⟨x, hx, y, hy, hgeq, hlt⟩ := consecutiveGaps_shape (b :: rest) g2 hg2
          have hbx : b ≤ x := by
            rcases List.mem_cons.mp hx with rfl | hx
            · exact Nat.le_refl x
            · exact Nat.le_of_lt ((List.sorted_cons.mp hs').1 x hx)
          rw [hgeq]
          simp only
          omega
        · rw [if_neg hab] at hg1
          simp at hg1

/-- Every gap produced by `gapsFound` is nonempty. -/
theorem gapsFound_lt (sb : List Nat) (m : Nat) :
    ∀ g ∈ gapsFound sb m, g.1 < g.2 := by
  intro g hg
  unfold gapsFound at hg
  rcases List.mem_append.mp hg with hg | hg
  · rcases List.mem_append.mp hg with hg | hg
    · obtain ⟨x, hx, y, hy, hgeq, hlt⟩ := consecutiveGaps_shape sb g hg
      rw [hgeq]
      simpa using hlt
    · cases hlast : sb.getLast? with
      | none => simp only [hlast] at hg; simp at hg
      | some b =>
        simp only [hlast] at hg
        by_cases hbm : b < m
        · rw [if_pos hbm] at hg
          simp only [List.mem_singleton] at hg
          subst hg
          simp only
          omega
        · rw [if_neg hbm] at hg
          simp at hg
  · cases hhead : sb.head? with
    | none => simp only [hhead] at hg; simp at hg
    | some a =>
      simp only [hhead] at hg
      by_cases ha : 1 < a
      · rw [if_pos ha] at hg
        simp only [List.mem_singleton] at hg
        subst hg
        simpa using ha
      · rw [if_neg ha] at hg
        simp at hg

/-- No member of any gap produced by `gapsFound` belongs to the
strictly sorted backup list. -/
theorem gapsFound_not_mem (sb : List Nat) (m : Nat) (hs : List.Sorted (· < ·) sb) :
    ∀ g ∈ gapsFound sb m, ∀ n, g.1 ≤ n → n < g.2 → n ∉ sb := by
  intro g hg n h1 h2
  unfold gapsFound at hg
  rcases List.mem_append.mp hg with hg | hg
  · rcases List.mem_append.mp hg with hg | hg
    · exact consecutiveGaps_not_mem sb hs g hg n h1 h2
    · cases hlast : sb.getLast? with
      | none => simp only [hlast] at hg; simp at hg
      | some b =>
        simp only [hlast] at hg
        by_cases hbm : b < m
        · rw [if_pos hbm] at hg
          simp only [List.mem_singleton] at hg
          subst hg
          simp only at h1 h2
          intro hn
          have := sorted_getLast_max sb hs hlast n hn
          omega
        · rw [if_neg hbm] at hg
          simp at hg
  · cases hhead : sb.head? with
    | none => simp only [hhead] at hg; simp at hg
    | some a =>
      simp only [hhead] at hg
      by_cases ha : 1 < a
      · rw [if_pos ha] at hg
        simp only [List.mem_singleton] at hg
        subst hg
        simp only at h1 h2
        intro hn
        have := sorted_head_min hs hhead n hn
        omega
      · rw [if_neg ha] at hg
        simp at hg

/-- The gaps produced by `gapsFound` are pairwise disjoint as half-open
intervals. -/
theorem gapsFound_disjoint (sb : List Nat) (m : Nat) (hs : List.Sorted (· < ·) sb) :
    List.Pairwise (fun g1 g2 => g1.2 ≤ g2.1 ∨ g2.2 ≤ g1.1) (gapsFound sb m) := by
  unfold gapsFound
  refine List.pairwise_append.mpr
    ⟨List.pairwise_append.mpr ⟨?_, ?_, ?_⟩, ?_, ?_⟩
  · exact (consecutiveGaps_ordered sb hs).imp (fun h => Or.inl h)
  · cases sb.getLast? with
    | none => simp
    | some b =>
      by_cases hbm : b < m
      · simp [hbm]
      · simp [hbm]
  · -- consecutive gap versus tail gap
    intro g1 hg1 g2 hg2
    obtain ⟨x, hx, y, hy, hgeq, hlt⟩ := consecutiveGaps_shape sb g1 hg1
    subst hgeq
    cases hlast : sb.getLast? with
    | none => simp only [hlast] at hg2; simp at hg2
    | some b =>
      simp only [hlast] at hg2
      by_cases hbm : b < m
      · rw [if_pos hbm] at hg2
        simp only [List.mem_singleton] at hg2
        subst hg2
        have hyb : y ≤ b := sorted_getLast_max sb hs hlast y hy
        left
        simp only
        omega
      · rw [if_neg hbm] at hg2
        simp at hg2
  · cases sb.head? with
    | none => simp
    | some a =>
      by_cases ha : 1 < a
      · simp [ha]
      · simp [ha]
  · -- consecutive or tail gap versus head gap
    intro g1 hg1 g2 hg2
    cases hhead : sb.head? with
    | none => simp only [hhead] at hg2; simp at hg2
    | some a =>
      simp only [hhead] at hg2
      by_cases ha : 1 < a
      · rw [if_pos ha] at hg2
        simp only [List.mem_singleton] at hg2
        subst hg2
        rcases List.mem_append.mp hg1 with hg1 | hg1
        · obtain ⟨x, hx, y, hy, hgeq, hlt⟩ := consecutiveGaps_shape sb g1 hg1
          subst hgeq
          have hax : a ≤ x := sorted_head_min hs hhead x hx
          right
          simp only
          omega
        · cases hlast : sb.getLast? with
          | none => simp only [hlast] at hg1; simp at hg1
          | some b =>
            simp only [hlast] at hg1
            by_cases hbm : b < m
            · rw [if_pos hbm] at hg1
              simp only [List.mem_singleton] at hg1
              subst hg1
              have hab : a ≤ b :=
                sorted_getLast_max sb hs hlast a (List.mem_of_mem_head? (by simp [hhead]))
              right
              simp only
              omega
            · rw [if_neg hbm] at hg1
              simp at hg1
      · rw [if_neg ha] at hg2
        simp at hg2

/-- An insertion sort by `≤` of a duplicate-free list of naturals is
strictly sorted. -/
theorem insertionSort_sorted_lt_of_nodup (l : List Nat) (hnd : l.Nodup) :
    List.Sorted (· < ·) (List.insertionSort (· ≤ ·) l) := by
  have hle : List.Sorted (· ≤ ·) (List.insertionSort (· ≤ ·) l) :=
    List.sorted_insertionSort (· ≤ ·) l
  have hperm := List.perm_insertionSort (· ≤ ·) l
  exact hle.lt_of_le (hperm.nodup_iff.mpr hnd)

/-- The sorted enumeration of a duplicate-free backup list is strictly
sorted. -/
theorem sortedBackupList_sorted (backup : List Nat) (hnd : backup.Nodup) :
    List.Sorted (· < ·) (sortedBackupList backup) :=
  insertionSort_sorted_lt_of_nodup backup hnd

/-- Membership in the sorted enumeration agrees with membership in the
backup list. -/
theorem mem_sortedBackupList {backup : List Nat} {n : Nat} :
    n ∈ sortedBackupList backup ↔ n ∈ backup :=
  (List.perm_insertionSort (· ≤ ·) backup).mem_iff

/-- The sorted gap list keeps every gap nonempty, keeps every gap
disjoint from the backup list, and is ordered: each gap ends no later
than the next begins. -/
theorem computeGaps_props (sb : List Nat) (m : Nat) (hs : List.Sorted (· < ·) sb) :
    (∀ g ∈ computeGaps sb m, g.1 < g.2) ∧
    (∀ g ∈ computeGaps sb m, ∀ n, g.1 ≤ n → n < g.2 → n ∉ sb) ∧
    List.Pairwise (fun g1 g2 => g1.2 ≤ g2.1) (computeGaps sb m) := by
  have hperm : List.Perm (computeGaps sb m) (gapsFound sb m) :=
    List.perm_insertionSort gapLe (gapsFound sb m)
  have hlt : ∀ g ∈ computeGaps sb m, g.1 < g.2 := by
    intro g hg
    exact gapsFound_lt sb m g (hperm.mem_iff.mp hg)
  refine ⟨hlt, ?_, ?_⟩
  · intro g hg
    exact gapsFound_not_mem sb m hs g (hperm.mem_iff.mp hg)
  · have hdisj : List.Pairwise (fun g1 g2 => g1.2 ≤ g2.1 ∨ g2.2 ≤ g1.1) (computeGaps sb m) := by
      refine (hperm.pairwise_iff ?_).mpr (gapsFound_disjoint sb m hs)
      intro g1 g2 h
      exact h.symm
    have hsorted : List.Pairwise gapLe (computeGaps sb m) :=
      List.sorted_insertionSort gapLe (gapsFound sb m)
    refine List.Pairwise.imp_of_mem ?_ (hsorted.and hdisj)
    intro g1 g2 h1 h2 hr
    obtain ⟨hle, hd⟩ := hr
    have l1 := hlt g1 h1
    have l2 := hlt g2 h2
    obtain ⟨s1, e1⟩ := g1
    obtain ⟨s2, e2⟩ := g2
    simp only [gapLe] at hle
    simp only at hd l1 l2 ⊢
    omega

/-- Every identifier probed in the large-range branch lies in some gap
of the sorted gap list. -/
theorem mem_flatten_gapRange {gaps : List (Nat × Nat)} {n : Nat}
    (hn : n ∈ (gaps.map gapRange).flatten) :
    ∃ g ∈ gaps, g.1 ≤ n ∧ n < g.1 + (g.2 - g.1) := by
  rw [List.mem_flatten] at hn
  obtain ⟨l, hl, hnl⟩ := hn
  obtain ⟨g, hg, rfl⟩ := List.mem_map.mp hl
  rw [gapRange, List.mem_range'_1] at hnl
  exact ⟨g, hg, hnl.1, hnl.2⟩

/-- The concatenated gap candidates of the large-range branch are
strictly increasing and all outside the backup list. -/
theorem largeCand_props (backup : List Nat) (m : Nat) (hnd : backup.Nodup) :
    (((computeGaps (sortedBackupList backup) m).map gapRange).flatten).Pairwise (· < ·) ∧
    ∀ n ∈ ((computeGaps (sortedBackupList backup) m).map gapRange).flatten,
      n ∉ backup := by
  have hs := sortedBackupList_sorted backup hnd
  obtain ⟨hlt, hnm, hord⟩ := computeGaps_props (sortedBackupList backup) m hs
  constructor
  · rw [List.pairwise_flatten]
    constructor
    · intro l hl
      obtain ⟨g, hg, rfl⟩ := List.mem_map.mp hl
      exact List.pairwise_lt_range' g.1 (g.2 - g.1)
    · rw [List.pairwise_map]
      refine List.Pairwise.imp_of_mem ?_ hord
      intro g1 g2 h1 h2 hr x hx y hy
      rw [gapRange, List.mem_range'_1] at hx hy
      have l1 := hlt g1 h1
      omega
  · intro n hn
    obtain ⟨g, hg, hn1, hn2⟩ := mem_flatten_gapRange hn
    have l := hlt g hg
    intro hmem
    exact hnm g hg n hn1 (by omega) (mem_sortedBackupList.mpr hmem)

/-- Both branches of the reconciler return a strictly ascending list of
identifiers, each confirmed by the probe and none a member of the
backup set. -/
theorem reconcile_sorted_confirmed (backup : List Nat) (m : Nat)
    (probe : Nat → Bool) (hnd : backup.Nodup) :
    List.Sorted (· < ·) (reconcile backup m probe).1 ∧
    ∀ n ∈ (reconcile backup m probe).1, probe n = true ∧ n ∉ backup := by
  have main : ∀ cand : List Nat, cand.Pairwise (· < ·) → (∀ n ∈ cand, n ∉ backup) →
      List.Sorted (· < ·) (List.insertionSort (· ≤ ·) (cand.filter probe)) ∧
      ∀ n ∈ List.insertionSort (· ≤ ·) (cand.filter probe),
        probe n = true ∧ n ∉ backup := by
    intro cand hpw hnb
    have hpwf : (cand.filter probe).Pairwise (· < ·) := hpw.filter probe
    constructor
    · exact insertionSort_sorted_lt_of_nodup _ (hpwf.imp (fun h => Nat.ne_of_lt h))
    · intro n hn
      rw [List.mem_insertionSort, List.mem_filter] at hn
      exact ⟨hn.2, hnb n hn.1⟩
  unfold reconcile
  by_cases hm : 1000 < m
  · rw [if_pos hm]
    obtain ⟨hpw, hnb⟩ := largeCand_props backup m hnd
    exact main _ hpw hnb
  · rw [if_neg hm]
    refine main _ ((List.pairwise_lt_range' 1 m).filter _) ?_
    intro n hn
    rw [List.mem_filter] at hn
    simpa using hn.2

/-- The Missing Identifier List of `find_missing_nodes` is empty or the
result of the reconciler applied to the scanned backup set. -/
theorem find_missing_nodes_fst (files1 files2 : List String) (nodePath : String)
    (homeScrape archiveScrape : Option (List Nat)) (probe : Nat → Bool) :
    (find_missing_nodes files1 files2 nodePath homeScrape archiveScrape probe).1 = [] ∨
    ∃ m, (find_missing_nodes files1 files2 nodePath homeScrape archiveScrape probe).1
        = (reconcile (scanBackup files1 files2) m probe).1 := by
  simp only [find_missing_nodes]
  split
  · exact Or.inl rfl
  · split
    · split
      · exact Or.inl rfl
      · exact Or.inr ⟨_, rfl⟩
    · split
      · exact Or.inl rfl
      · exact Or.inr ⟨_, rfl⟩

/-- C6: for every archive directory content, scrape outcome and probe
oracle, the Missing Identifier List returned by `find_missing_nodes` is
strictly ascending, every listed identifier was confirmed by a probe,
and none of them belongs to the scanned Archived Identifier Set; this
covers the exhaustive small-range branch and the gap-interval
large-range branch alike. -/
theorem find_missing_nodes_sorted_and_confirmed (files1 files2 : List String)
    (nodePath : String) (homeScrape archiveScrape : Option (List Nat))
    (probe : Nat → Bool) :
    List.Sorted (· < ·)
      (find_missing_nodes files1 files2 nodePath homeScrape archiveScrape probe).1 ∧
    ∀ n ∈ (find_missing_nodes files1 files2 nodePath homeScrape archiveScrape probe).1,
      probe n = true ∧ n ∉ scanBackup files1 files2 := by
  obtain h | ⟨m, h⟩ :=
    find_missing_nodes_fst files1 files2 nodePath homeScrape archiveScrape probe
  · rw [h]
    exact ⟨List.sorted_nil, by simp⟩
  · rw [h]
    exact reconcile_sorted_confirmed (scanBackup files1 files2) m probe
      (List.nodup_dedup _)

/-- Concrete application of the reconciliation-output theorem: archive
files 2.html and 9.html, a scraped maximum of 4 and an
even-identifiers-only probe give a missing list containing 4, which is
confirmed by the probe and absent from the scanned set. -/
theorem find_missing_nodes_sorted_and_confirmed_witness :
    List.Sorted (· < ·)
      (find_missing_nodes ["2.html", "9.html"] [] ("tortilla") (some [4]) none
        (fun n => decide (n % 2 = 0))).1 ∧
    ((fun n => decide (n % 2 = 0)) 4 = true ∧
      4 ∉ scanBackup ["2.html", "9.html"] []) := by
  have h := find_missing_nodes_sorted_and_confirmed ["2.html", "9.html"] []
    ("tortilla") (some [4]) none (fun n => decide (n % 2 = 0))
  exact ⟨h.1, h.2 4 (by decide)⟩
